import Mathlib

/-!
Verification of `pyethereum` (`blocks.py`, `peer.py`) against its
natural-language specification.

Shallow embedding conventions:

* Byte strings are `List Nat` (one `Nat` per byte).
* The external libraries `utils`, `rlp`, `trie`, `db` are not part of the
  sources under verification.  The cryptographic hash `sha3` and the RLP
  encoders are taken as explicit function parameters of every definition
  that uses them; deterministic codecs (`int`, `addr`) are modelled from
  the spec (section 4.1).
* Python dictionaries (the per-block caches) are modelled as a flat
  association list keyed by (cache name, key); `cacheSet` overwrites in
  place, `cacheDel` removes, `cacheGet` looks up.
* Merkle tries are persistent: updating produces a new root and the old
  root still addresses the old contents.  The state trie is therefore
  modelled as a growing list of account-map versions (`stateHeap`) with
  `state_root_hash` an index (root pointer) into it; restoring a root
  restores the whole view, exactly as restoring `state.root_hash` does in
  the source.  The transactions trie is an in-place-updated object; only
  its handle (`transactions`) is stored in snapshots, so its contents
  (`txblobs`) are not reverted, matching the source.
-/

/-- Byte strings: one natural number (0..255) per byte. -/
abbrev Bytes := List Nat

/-- Values stored in the per-block caches: Python ints, booleans
(`set_storage_data` journals `('all', address, True)`), byte strings. -/
inductive Val where
  | vint (i : Int) : Val
  | vbool (b : Bool) : Val
  | vbytes (s : Bytes) : Val
deriving DecidableEq

/-- Keys of the cache dictionaries: account addresses (hex strings) for
`balance`/`nonce`/`code`/`all`, storage indices (ints) for the
`storage:<address>` sub-caches. -/
inductive CKey where
  | addr (a : String) : CKey
  | idx (i : Int) : CKey
deriving DecidableEq

/-- One journal entry, as appended by `Block.set_and_journal`:
`[cache, index, prev, value]` where `prev` is `None` (here `none`) when the
key was absent from the cache. -/
structure JEntry where
  cache : String
  key : CKey
  prev : Option Val
  post : Val
deriving DecidableEq

/-- The family of cache dictionaries (`self.caches`), flattened into one
association list keyed by (cache name, key).  A cache-name whose entries are
all absent corresponds to an empty (or not yet created) Python sub-dict. -/
abbrev Caches := List ((String × CKey) × Val)

/-- Dictionary lookup: `self.caches[cache].get(index, None)`. -/
def cacheGet : Caches → String → CKey → Option Val
  | [], _, _ => none
  | (kv :: rest), c, k => if kv.1 = (c, k) then some kv.2 else cacheGet rest c k

/-- Dictionary write: `self.caches[cache][index] = value` (overwrite in
place when present, append when absent). -/
def cacheSet : Caches → String → CKey → Val → Caches
  | [], c, k, v => [((c, k), v)]
  | (kv :: rest), c, k, v =>
    if kv.1 = (c, k) then ((c, k), v) :: rest else kv :: cacheSet rest c k v

/-- Dictionary delete: `del self.caches[cache][index]`. -/
def cacheDel (cs : Caches) (c : String) (k : CKey) : Caches :=
  cs.filter (fun kv => kv.1 ≠ (c, k))

/-- An account record, per `acct_structure`: nonce, balance, storage,
code.  The storage trie owned by the account is external and persistent;
it is modelled by its contents, a total map from storage index to value
with 0 meaning absent (`get_storage_data` returns 0 for absent keys and
`commit_state` deletes keys written with value 0). -/
structure Acct where
  nonce : Int
  balance : Int
  storage : Int → Int
  code : Bytes

/-- One version of the state trie: hex address → stored account. -/
abbrev AcctMap := String → Option Acct

/-- Source: `mk_blank_acct`: zero nonce and balance, empty storage trie, empty
code. -/
def blankAcct : Acct := ⟨0, 0, fun _ => 0, []⟩

/-- Modelled from the spec (4.1, `utils.big_endian_to_int`, missing from
src/): big-endian interpretation of a byte string. -/
def big_endian_to_int (bs : Bytes) : Nat :=
  bs.foldl (fun acc x => acc * 256 + x) 0

/-- Modelled from the spec (4.1, `utils.decoders['int']`, missing from
src/): decode the shortest big-endian integer encoding (empty = 0). -/
def decode_int (bs : Bytes) : Nat := big_endian_to_int bs

/-- Modelled from the spec (4.1, `utils.int_to_big_endian`, missing from
src/): shortest big-endian byte string, no leading zero, zero → empty. -/
def int_to_big_endian (n : Nat) : Bytes :=
  if n = 0 then [] else int_to_big_endian (n / 256) ++ [n % 256]
decreasing_by exact Nat.div_lt_self (Nat.pos_of_ne_zero (by assumption)) (by norm_num)

/-- Modelled from the spec (4.1, `utils.encoders['int']`, missing from
src/). -/
def encode_int (n : Nat) : Bytes := int_to_big_endian n

/-- Value of one hexadecimal digit character. -/
def hexDigit (c : Char) : Nat :=
  if '0' ≤ c ∧ c ≤ '9' then c.toNat - 48
  else if 'a' ≤ c ∧ c ≤ 'f' then c.toNat - 87
  else 0

/-- Hexadecimal character for a value 0..15. -/
def hexChar (n : Nat) : Char :=
  if n < 10 then Char.ofNat (48 + n) else Char.ofNat (87 + n)

/-- Modelled from the spec (4.1, `addr` encoder, missing from src/):
hex-string address → 20 binary bytes. -/
def hexToBytes : List Char → Bytes
  | c1 :: c2 :: rest => (hexDigit c1 * 16 + hexDigit c2) :: hexToBytes rest
  | _ => []

/-- Modelled from the spec (4.1, `addr` decoder, missing from src/):
binary bytes → hex-string address. -/
def bytesToHex (bs : Bytes) : String :=
  String.mk (bs.foldr (fun b acc => hexChar (b / 16) :: hexChar (b % 16) :: acc) [])

/-- Source: `encoders['addr']` applied to a hex-string address. -/
def encodeAddr (a : String) : Bytes := hexToBytes a.toList

/-- Source: `decoders['addr']` applied to 20 binary bytes (as used on uncle
coinbases in `finalize`). -/
def decodeAddr (bs : Bytes) : String := bytesToHex bs

/-- Source: `BLOCK_REWARD = 1500 * utils.denoms.finney` (finney = 10^15). -/
def BLOCK_REWARD : Nat := 1500 * 10 ^ 15

/-- Source: `UNCLE_REWARD = 15 * BLOCK_REWARD / 16` (integer division). -/
def UNCLE_REWARD : Nat := 15 * BLOCK_REWARD / 16

/-- Source: `NEPHEW_REWARD = BLOCK_REWARD / 32`. -/
def NEPHEW_REWARD : Nat := BLOCK_REWARD / 32

/-- Source: `BLOCK_DIFF_FACTOR = 1024`. -/
def BLOCK_DIFF_FACTOR : Nat := 1024

/-- Source: `DIFF_ADJUSTMENT_CUTOFF = 5`. -/
def DIFF_ADJUSTMENT_CUTOFF : Int := 5

/-- Source: `GASLIMIT_EMA_FACTOR = 1024`. -/
def GASLIMIT_EMA_FACTOR : Nat := 1024

/-- Source: `MIN_GAS_LIMIT = 125000`. -/
def MIN_GAS_LIMIT : Nat := 125000

/-- Source: `BLKLIM_FACTOR_NOM = 6`, `BLKLIM_FACTOR_DEN = 5`. -/
def BLKLIM_FACTOR_NOM : Nat := 6

/-- See `BLKLIM_FACTOR_NOM`. -/
def BLKLIM_FACTOR_DEN : Nat := 5

/-- A `Block` (class `Block` of `blocks.py`).  Header fields keep their
source names; `state_root_hash` is `self.state.root_hash` (an index into
`stateHeap`, see the module comment); `transactions` is the identity
(handle) of the in-place transactions-trie object whose contents are
`txblobs`; uncles are raw decoded header lists, as in the source. -/
structure Block where
  prevhash : Bytes
  uncles_hash : Bytes
  coinbase : String
  difficulty : Nat
  number : Nat
  min_gas_price : Nat
  gas_limit : Nat
  gas_used : Nat
  timestamp : Nat
  extra_data : Bytes
  nonce : Bytes
  uncles : List (List Bytes)
  suicides : List String
  postqueue : List Val
  caches : Caches
  journal : List JEntry
  transactions : Nat
  transaction_count : Nat
  txblobs : List (Bytes × Bytes × Bytes)
  stateHeap : List AcctMap
  state_root_hash : Nat

/-- The account map addressed by the current state root. -/
def stateMap (b : Block) : AcctMap :=
  (b.stateHeap.get? b.state_root_hash).getD (fun _ => none)

/-- Source: `Block.get_acct`: the decoded account stored at `address`, or the
blank account (`rlp.decode(self.state.get(address)) or self.mk_blank_acct()`). -/
def get_acct (b : Block) (a : String) : Acct := ((stateMap b) a).getD blankAcct

/-- Select the field named `param` from an account record, as the cache
value type (`acct[acct_structure_rev[param][0]]`).  The claims only use
the three cached parameters `nonce`, `balance`, `code`; the storage root
of the external trie is opaque here. -/
def acctField (acct : Acct) (param : String) : Val :=
  if param = "nonce" then Val.vint acct.nonce
  else if param = "balance" then Val.vint acct.balance
  else if param = "code" then Val.vbytes acct.code
  else Val.vint 0

/-- Source: `Block._get_acct_item`: cached value if the parameter is cached and
not `storage`, otherwise read through to the state trie. -/
def get_acct_item (b : Block) (a : String) (param : String) : Val :=
  if param ≠ "storage" then
    match cacheGet b.caches param (CKey.addr a) with
    | some v => v
    | none => acctField (get_acct b a) param
  else acctField (get_acct b a) param

/-- Source: `Block.set_and_journal(cache, index, value)`: if the cached value
differs (or is absent), append `[cache, index, prev, value]` to the
journal and write the cache. -/
def set_and_journal (b : Block) (c : String) (k : CKey) (v : Val) : Block :=
  let prev := cacheGet b.caches c k
  if prev = some v then b
  else { b with journal := b.journal ++ [⟨c, k, prev, v⟩],
                caches := cacheSet b.caches c k v }

/-- Source: `Block._set_acct_item`: journalled write to the parameter cache and
to the `all` (dirty) cache. -/
def set_acct_item (b : Block) (a : String) (param : String) (v : Val) : Block :=
  set_and_journal (set_and_journal b param (CKey.addr a) v) "all" (CKey.addr a) v

/-- Coerce a cache value to a Python int (the caches hold ints for
`balance` and `nonce`). -/
def valToInt : Val → Int
  | Val.vint i => i
  | _ => 0

/-- Coerce a cache value to a byte string (the `code` cache). -/
def valToBytes : Val → Bytes
  | Val.vbytes s => s
  | _ => []

/-- Source: `Block._delta_item`: add `value` to the account item; fail (returning
the block unchanged) when the result would be negative. -/
def delta_item (b : Block) (a : String) (param : String) (value : Int) :
    Bool × Block :=
  let v2 := valToInt (get_acct_item b a param) + value
  if v2 < 0 then (false, b)
  else (true, set_acct_item b a param (Val.vint v2))

/-- Source: `Block.get_balance`. -/
def get_balance (b : Block) (a : String) : Int :=
  valToInt (get_acct_item b a "balance")

/-- Source: `Block.delta_balance`. -/
def delta_balance (b : Block) (a : String) (value : Int) : Bool × Block :=
  delta_item b a "balance" value

/-- Source: `Block.transfer_value`: `assert value >= 0` (modelled as `none`, the
raise happens before any state access), then debit the sender and credit
the receiver only when the debit succeeded. -/
def transfer_value (b : Block) (from_addr to_addr : String) (value : Int) :
    Option (Bool × Block) :=
  if value < 0 then none
  else
    let d := delta_balance b from_addr (-value)
    if d.1 then some (delta_balance d.2 to_addr value)
    else some (false, d.2)

/-- A snapshot (`Block.snapshot`).  `'suicides'` and `'journal'` are
stored by reference in the source (the comment there: "pointer to
reference, so is not static"); since the mutating operations only append
to them, the reference contents at revert time are the block's own lists,
and only the recorded sizes matter.  `'postqueue'` is a genuine
`copy.copy`. -/
structure Snapshot where
  state : Nat
  gas : Nat
  txs : Nat
  txcount : Nat
  postqueue : List Val
  suicides_size : Nat
  journal_size : Nat

/-- Source: `Block.snapshot`. -/
def snapshot (b : Block) : Snapshot :=
  { state := b.state_root_hash
    gas := b.gas_used
    txs := b.transactions
    txcount := b.transaction_count
    postqueue := b.postqueue
    suicides_size := b.suicides.length
    journal_size := b.journal.length }

/-- Undo one popped journal entry: restore `caches[cache][index] = prev`,
or delete the key when `prev` was `None`. -/
def undoEntry (cs : Caches) (e : JEntry) : Caches :=
  match e.prev with
  | some v => cacheSet cs e.cache e.key v
  | none => cacheDel cs e.cache e.key

/-- The `while len(self.journal) > snapshot['journal_size']` loop of
`Block.revert`: pop the extra entries from the tail, last first, undoing
each.  `extra` is the journal suffix past the snapshot size, in append
order; `List.foldr` visits its last element first, exactly as the pops
do. -/
def revertCaches (cs : Caches) (extra : List JEntry) : Caches :=
  extra.foldr (fun e acc => undoEntry acc e) cs

/-- Source: `Block.revert`.  Because the mutating operations only ever append to
the journal, the loop pops exactly the suffix past `journal_size`
(`drop`), leaving the prefix (`take`); likewise for suicides. -/
def revert (b : Block) (s : Snapshot) : Block :=
  { b with
    caches := revertCaches b.caches (b.journal.drop s.journal_size)
    journal := b.journal.take s.journal_size
    suicides := b.suicides.take s.suicides_size
    state_root_hash := s.state
    gas_used := s.gas
    transactions := s.txs
    transaction_count := s.txcount
    postqueue := s.postqueue }

/-- The keys of the `all` cache (the dirty-address set iterated by
`commit_state`), in insertion order. -/
def dirtyAddrs (cs : Caches) : List String :=
  cs.foldr
    (fun kv acc =>
      match kv.1 with
      | ("all", CKey.addr a) => a :: acc
      | _ => acc) []

/-- The `(index, value)` items of the `storage:<address>` cache
(`self.caches.get('storage:'+address, {}).iteritems()`), in insertion
order. -/
def storageItems (cs : Caches) (a : String) : List (Int × Int) :=
  cs.foldr
    (fun kv acc =>
      match kv.1 with
      | (n, CKey.idx i) =>
        if n = "storage:" ++ a then (i, valToInt kv.2) :: acc else acc
      | _ => acc) []

/-- The per-address body of the `commit_state` loop: load the stored
account (or blank), overwrite each of `nonce`/`balance`/`code` from its
cache when the address is present there, and apply every cached storage
write to the account's storage trie (value 0 deletes the key). -/
def commitAcct (cs : Caches) (m : AcctMap) (a : String) : Acct :=
  let acct0 := (m a).getD blankAcct
  let acct1 :=
    match cacheGet cs "nonce" (CKey.addr a) with
    | some v => { acct0 with nonce := valToInt v }
    | none => acct0
  let acct2 :=
    match cacheGet cs "balance" (CKey.addr a) with
    | some v => { acct1 with balance := valToInt v }
    | none => acct1
  let acct3 :=
    { acct2 with
      storage :=
        (storageItems cs a).foldl
          (fun st kv => fun j => if j = kv.1 then kv.2 else st j) acct2.storage }
  match cacheGet cs "code" (CKey.addr a) with
  | some v => { acct3 with code := valToBytes v }
  | none => acct3

/-- Source: `Block.commit_state`: a no-op when the journal is empty; otherwise
write every dirty account back into the state trie (producing a new root
that addresses the updated map) and `reset_cache` (empty caches, empty
journal).  The optional proof-recording hooks (`proof_mode`) are inactive
(`None`) throughout and are omitted. -/
def commit_state (b : Block) : Block :=
  if b.journal = [] then b
  else
    let m := stateMap b
    let m2 :=
      (dirtyAddrs b.caches).foldl
        (fun mm a => fun x => if x = a then some (commitAcct b.caches mm a) else mm x)
        m
    { b with
      stateHeap := b.stateHeap ++ [m2]
      state_root_hash := b.stateHeap.length
      caches := []
      journal := [] }

/-- The coinbase of a raw uncle header
(`Block.deserialize_header(uncle_rlp)['coinbase']`, field index 2). -/
def uncleCoinbase (u : List Bytes) : String := decodeAddr (u.getD 2 [])

/-- Source: `Block.finalize`: credit the block's coinbase with
`BLOCK_REWARD + NEPHEW_REWARD * len(uncles)`, credit each uncle's
coinbase with `UNCLE_REWARD`, then `commit_state`. -/
def finalize (b : Block) : Block :=
  let b1 := (delta_balance b b.coinbase
    ((BLOCK_REWARD : Int) + NEPHEW_REWARD * b.uncles.length)).2
  let b2 := b.uncles.foldl
    (fun bb u => (delta_balance bb (uncleCoinbase u) (UNCLE_REWARD : Int)).2) b1
  commit_state b2

/-- Modelled from the spec (external trie, 6): the state trie root as a
byte string, for header serialization.  Roots are opaque 32-byte values
owned by the external trie; here the root pointer is rendered as bytes.
No claim depends on this rendering. -/
def trieRootBytes (root : Nat) : Bytes := encode_int root

/-- Modelled from the spec (external trie, 4.4): the transactions-trie
root (`self.transactions.root_hash`, the `tx_list_root` property) as a
function of the trie contents.  No claim depends on this rendering. -/
def txRoot (blobs : List (Bytes × Bytes × Bytes)) : Bytes :=
  blobs.foldr (fun t acc => t.1 ++ t.2.1 ++ t.2.2 ++ acc) []

/-- Source: `Block.list_header` (no exclusions): the 13 header fields encoded by
their typed encoders, in `block_structure` order. -/
def list_header (b : Block) : List Bytes :=
  [b.prevhash,
   b.uncles_hash,
   encodeAddr b.coinbase,
   trieRootBytes b.state_root_hash,
   txRoot b.txblobs,
   encode_int b.difficulty,
   encode_int b.number,
   encode_int b.min_gas_price,
   encode_int b.gas_limit,
   encode_int b.gas_used,
   encode_int b.timestamp,
   b.extra_data,
   b.nonce]

/-- Source: `Block._hash`: `sha3(rlp.encode(self.list_header()))`. -/
def block_hash (sha3 : Bytes → Bytes) (rlpenc : List Bytes → Bytes)
    (b : Block) : Bytes :=
  sha3 (rlpenc (list_header b))

/-- Source: `check_header_pow(header)`: `assert len(header[-1]) == 32` (modelled
as `none`, as is the `ZeroDivisionError` of `2 ** 256 / diff` when the
decoded difficulty is zero); otherwise compare
`sha3(sha3(rlp(header[:-1])) + nonce)` as a big-endian integer against
`2 ** 256 / difficulty`. -/
def check_header_pow (sha3 : Bytes → Bytes) (rlpenc : List Bytes → Bytes)
    (header : List Bytes) : Option Bool :=
  let nonce := header.getD (header.length - 1) []
  if nonce.length ≠ 32 then none
  else
    let rlp_Hn := rlpenc header.dropLast
    let diff := decode_int (header.getD 5 [])
    if diff = 0 then none
    else some (decide
      (big_endian_to_int (sha3 (sha3 rlp_Hn ++ nonce)) < 2 ^ 256 / diff))

/-- Modelled from the spec's words (4.5, proof-of-work check), for
comparison with `check_header_pow`: `Hn` is the canonical encoding of the
first 12 fields, `nonce` the 13th field, and the header passes iff
`sha3(sha3(Hn) ++ nonce)` read big-endian is strictly below
`2 ^ 256 / difficulty` (integer division by the decoded difficulty
field). -/
def powPassesSpec (sha3 : Bytes → Bytes) (rlpenc : List Bytes → Bytes)
    (header : List Bytes) : Bool :=
  let Hn := header.take 12
  let nonce := header.getD 12 []
  let diff := decode_int (header.getD 5 [])
  decide (big_endian_to_int (sha3 (sha3 (rlpenc Hn) ++ nonce)) < 2 ^ 256 / diff)

/-- Source: `calc_difficulty(parent, timestamp)`.  The difficulty is a
non-negative Python int; `offset ≤ parent.difficulty`, so the truncated
subtraction agrees with the source's signed arithmetic. -/
def calc_difficulty (parent : Block) (timestamp : Nat) : Nat :=
  let offset := parent.difficulty / BLOCK_DIFF_FACTOR
  if (timestamp : Int) - (parent.timestamp : Int) < DIFF_ADJUSTMENT_CUTOFF
  then parent.difficulty + offset
  else parent.difficulty - offset

/-- Source: `calc_gaslimit(parent)`. -/
def calc_gaslimit (parent : Block) : Nat :=
  let prior_contribution := parent.gas_limit * (GASLIMIT_EMA_FACTOR - 1)
  let new_contribution := parent.gas_used * BLKLIM_FACTOR_NOM / BLKLIM_FACTOR_DEN
  let gl := (prior_contribution + new_contribution) / GASLIMIT_EMA_FACTOR
  max gl MIN_GAS_LIMIT

/-- Modelled from the spec's words (4.5, difficulty recurrence), for
comparison with `calc_difficulty`:
`parent.difficulty + sign * (parent.difficulty / 1024)` with `sign = +1`
when `timestamp - parent.timestamp < 5` and `-1` otherwise. -/
def difficultySpec (pdiff pts ts : Nat) : Int :=
  let sign : Int := if (ts : Int) - (pts : Int) < 5 then 1 else -1
  (pdiff : Int) + sign * ((pdiff / 1024 : Nat) : Int)

/-- Modelled from the spec's words (4.5, gas-limit recurrence), for
comparison with `calc_gaslimit`:
`max(125000, (parent.gas_limit * 1023 + parent.gas_used * 6 / 5) / 1024)`. -/
def gasLimitSpec (pgl pgu : Nat) : Nat :=
  max 125000 ((pgl * 1023 + pgu * 6 / 5) / 1024)

/-- Source: `Block.init_from_parent(parent, coinbase, extra_data, timestamp,
uncles)`: the child block handed to the `Block` constructor.  The
constructor's consistency re-verifications (codec round-trips, root
presence) are validity checks that do not alter the assigned fields and
are omitted.  A fresh transactions trie is opened at `BLANK_ROOT`
(handle 0, empty contents); the state trie is reopened at the parent's
root. -/
def init_from_parent (sha3 : Bytes → Bytes) (rlpenc : List Bytes → Bytes)
    (rlpencL : List (List Bytes) → Bytes) (parent : Block) (coinbase : String)
    (extra_data : Bytes) (timestamp : Nat) (uncles : List (List Bytes)) : Block :=
  { prevhash := block_hash sha3 rlpenc parent
    uncles_hash := sha3 (rlpencL uncles)
    coinbase := coinbase
    difficulty := calc_difficulty parent timestamp
    number := parent.number + 1
    min_gas_price := 0
    gas_limit := calc_gaslimit parent
    gas_used := 0
    timestamp := timestamp
    extra_data := extra_data
    nonce := []
    uncles := uncles
    suicides := []
    postqueue := []
    caches := []
    journal := []
    transactions := 0
    transaction_count := 0
    txblobs := []
    stateHeap := parent.stateHeap
    state_root_hash := parent.state_root_hash }

/-- Source: `Block.get_parent`: raises (`none`) for the genesis block and for an
unknown prevhash; otherwise the block stored under `self.prevhash`
(`getblock` stands for the `get_block` lookup in the external store). -/
def get_parent (getblock : Bytes → Option Block) (b : Block) : Option Block :=
  if b.number = 0 then none else getblock b.prevhash

/-- The ancestor-collection loop of `validate_uncles`: up to `fuel`
iterations, each appending the parent of the last collected block while
that block's number is positive; a failing parent lookup aborts
(`none`, the `UnknownParentException`). -/
def ancestors (getblock : Bytes → Option Block) : Nat → Block → Option (List Block)
  | 0, _ => some []
  | fuel + 1, last =>
    if last.number > 0 then
      match get_parent getblock last with
      | none => none
      | some p => (ancestors getblock fuel p).map (fun l => p :: l)
    else some []

/-- Source: `ancestor_chain = [self] ++ up to 7 ancestors` as built by
`validate_uncles`. -/
def ancestor_chain (getblock : Bytes → Option Block) (b : Block) :
    Option (List Block) :=
  (ancestors getblock 7 b).map (fun l => b :: l)

/-- The `for uncle in self.uncles` loop of `validate_uncles`: proof of
work (whose assertion failure propagates: `none`), eligible parent hash,
not ineligible, then the uncle itself is added to `ineligible`. -/
def uncleLoop (sha3 : Bytes → Bytes) (rlpenc : List Bytes → Bytes)
    (eligible : List Bytes) (ineligible : List (List Bytes)) :
    List (List Bytes) → Option Bool
  | [] => some true
  | u :: rest =>
    match check_header_pow sha3 rlpenc u with
    | none => none
    | some false => some false
    | some true =>
      if u.getD 0 [] ∈ eligible then
        if u ∈ ineligible then some false
        else uncleLoop sha3 rlpenc eligible (ineligible ++ [u]) rest
      else some false

/-- Source: `Block.validate_uncles`: reject on `sha3(rlp.encode(self.uncles)) !=
self.uncles_hash`; build the ancestor chain (propagating a missing-parent
exception); collect the uncles of ancestors 1.. and the headers of every
chain member as `ineligible`, the hashes of ancestors 2.. as eligible
parents; then run the uncle loop. -/
def validate_uncles (sha3 : Bytes → Bytes) (rlpenc : List Bytes → Bytes)
    (rlpencL : List (List Bytes) → Bytes) (getblock : Bytes → Option Block)
    (b : Block) : Option Bool :=
  if sha3 (rlpencL b.uncles) ≠ b.uncles_hash then some false
  else
    match ancestor_chain getblock b with
    | none => none
    | some chain =>
      let ineligible :=
        ((chain.drop 1).foldl (fun acc a => acc ++ a.uncles) [])
          ++ chain.map list_header
      let eligible := (chain.drop 2).map (block_hash sha3 rlpenc)
      uncleLoop sha3 rlpenc eligible ineligible b.uncles

/-- Modelled from the claim's words, for comparison with
`validate_uncles`: the uncles hash matches; every uncle passes proof of
work, has its prevhash among the hashes of ancestors 2..7 blocks back, is
not an uncle included by an ancestor 1..7 back, and is not any chain
member's own header; and no uncle appears twice in the list. -/
def unclesSpecProp (sha3 : Bytes → Bytes) (rlpenc : List Bytes → Bytes)
    (rlpencL : List (List Bytes) → Bytes) (chain : List Block) (b : Block) :
    Prop :=
  sha3 (rlpencL b.uncles) = b.uncles_hash ∧
  (∀ u ∈ b.uncles,
    check_header_pow sha3 rlpenc u = some true ∧
    u.getD 0 [] ∈ (chain.drop 2).map (block_hash sha3 rlpenc) ∧
    u ∉ ((chain.drop 1).map Block.uncles).flatten ∧
    u ∉ chain.map list_header) ∧
  b.uncles.Nodup

/-- The journalled and snapshot-covered mutations named by the claims:
a `set_and_journal` cache write, a `suicides.append`, a change of
`gas_used`, `_add_transaction_to_list` (trie write of the serialized
triple plus counter increment; the trie object and hence the handle is
unchanged), and an arbitrary replacement of the post-queue. -/
inductive Op where
  | write (cache : String) (key : CKey) (val : Val) : Op
  | addSuicide (a : String) : Op
  | setGas (g : Nat) : Op
  | addTx (d : Bytes × Bytes × Bytes) : Op
  | setPost (q : List Val) : Op

/-- Apply one mutation. -/
def applyOp (b : Block) : Op → Block
  | Op.write c k v => set_and_journal b c k v
  | Op.addSuicide a => { b with suicides := b.suicides ++ [a] }
  | Op.setGas g => { b with gas_used := g }
  | Op.addTx d =>
    { b with txblobs := b.txblobs ++ [d],
             transaction_count := b.transaction_count + 1 }
  | Op.setPost q => { b with postqueue := q }

/-- Apply a sequence of mutations in order. -/
def applyOps (b : Block) (ops : List Op) : Block := ops.foldl applyOp b

/-- A `CachedBlock`: the wrapped block plus the `_hash_cached` slot
(initially `None`). -/
structure CachedBlock where
  blk : Block
  hash_cached : Option Bytes

/-- Source: `CachedBlock.create_cached`. -/
def CachedBlock.create_cached (b : Block) : CachedBlock := ⟨b, none⟩

/-- Source: `CachedBlock._set_acct_item`: raises (`none`); the raise precedes any
mutation, so the wrapped block is untouched. -/
def cb_set_acct_item (_c : CachedBlock) (_a : String) (_param : String)
    (_v : Val) : Option CachedBlock := none

/-- Source: `CachedBlock._add_transaction_to_list`: raises (`none`). -/
def cb_add_transaction_to_list (_c : CachedBlock)
    (_d : Bytes × Bytes × Bytes) : Option CachedBlock := none

/-- Source: `CachedBlock.set_state_root`: raises (`none`). -/
def cb_set_state_root (_c : CachedBlock) (_root : Nat) : Option CachedBlock :=
  none

/-- Source: `CachedBlock.revert`: raises (`none`). -/
def cb_revert (_c : CachedBlock) (_s : Snapshot) : Option CachedBlock := none

/-- Source: `CachedBlock.commit_state`: `pass` — returns normally and changes
nothing. -/
def cb_commit_state (c : CachedBlock) : Option CachedBlock := some c

/-- Source: `CachedBlock._hash`: `if not self._hash_cached:` compute and store
`Block._hash(self)`; return the stored value.  (Python truthiness: an
empty stored string also triggers recomputation.) -/
def cb_hash (sha3 : Bytes → Bytes) (rlpenc : List Bytes → Bytes)
    (c : CachedBlock) : Bytes × CachedBlock :=
  if c.hash_cached.getD [] = [] then
    let h := block_hash sha3 rlpenc c.blk
    (h, { c with hash_cached := some h })
  else (c.hash_cached.getD [], c)

/-- The peer-session state touched by `Peer._recv_Status` (`peer.py`). -/
structure Peer where
  status_received : Bool
  status_head_hash : Option Bytes
  status_total_difficulty : Option Nat
deriving DecidableEq

/-- Observable actions of the status handler: a Disconnect packet sent
with its reason, the `peer_disconnect_requested` signal with its `forget`
flag, and the `peer_status_received` signal. -/
inductive PeerEvent where
  | sentDisconnect (reason : String) : PeerEvent
  | disconnectRequested (forget : Bool) : PeerEvent
  | statusReceived : PeerEvent
deriving DecidableEq

/-- Source: `Peer.reasons_to_forget`. -/
def reasons_to_forget : List String :=
  ["Bad protocol", "Incompatible network protocols", "Wrong genesis block"]

/-- Source: `Peer.send_Disconnect(reason)`: send the Disconnect packet, then
signal `peer_disconnect_requested` with `forget = reason in
self.reasons_to_forget`. -/
def send_Disconnect (reason : String) : List PeerEvent :=
  [PeerEvent.sentDisconnect reason,
   PeerEvent.disconnectRequested (decide (reason ∈ reasons_to_forget))]

/-- Source: `Peer._recv_Status(data)`.  `localEthVer` is
`packeter.ETHEREUM_PROTOCOL_VERSION`, `localNetId` is
`packeter.NETWORK_ID` (the `packeter` module is external), and
`localGenesisHash` is `blocks.genesis().hash`.  Fewer than five payload
items raises `IndexError`, caught and answered with a Disconnect. -/
def recv_Status (localEthVer localNetId : Nat) (localGenesisHash : Bytes)
    (p : Peer) (data : List Bytes) : Peer × List PeerEvent :=
  if data.length < 5 then
    (p, send_Disconnect "Incompatible network protocols")
  else
    let ethereum_protocol_version := big_endian_to_int (data.getD 0 [])
    let network_id := big_endian_to_int (data.getD 1 [])
    let total_difficulty := big_endian_to_int (data.getD 2 [])
    let head_hash := data.getD 3 []
    let genesis_hash := data.getD 4 []
    if ethereum_protocol_version ≠ localEthVer then
      (p, send_Disconnect "Incompatible network protocols")
    else if network_id ≠ localNetId then
      (p, send_Disconnect "Wrong genesis block")
    else if genesis_hash ≠ localGenesisHash then
      (p, send_Disconnect "Wrong genesis block")
    else
      ({ p with
         status_received := true
         status_head_hash := some head_hash
         status_total_difficulty := some total_difficulty },
       [PeerEvent.statusReceived])

/-- A concrete all-default block (fresh caches, empty journal, empty
store), used to instantiate theorems with hypotheses. -/
def blk0 : Block :=
  { prevhash := List.replicate 32 0
    uncles_hash := []
    coinbase := "0000000000000000000000000000000000000000"
    difficulty := 131072
    number := 0
    min_gas_price := 0
    gas_limit := 1000000
    gas_used := 0
    timestamp := 0
    extra_data := []
    nonce := []
    uncles := []
    suicides := []
    postqueue := []
    caches := []
    journal := []
    transactions := 0
    transaction_count := 0
    txblobs := []
    stateHeap := []
    state_root_hash := 0 }

/-- The scenario-S2 parent: difficulty 131072, gas_limit 10^6,
gas_used 0, timestamp 1000. -/
def p131 : Block := { blk0 with timestamp := 1000 }

/-- A concrete stand-in hash function for instantiations. -/
def testSha3 : Bytes → Bytes := fun _ => [1]

/-- A concrete stand-in header encoder for instantiations. -/
def testRlp : List Bytes → Bytes := fun _ => []

/-- A concrete stand-in uncle-list encoder for instantiations. -/
def testRlpL : List (List Bytes) → Bytes := fun _ => []

/-- A concrete empty block store for instantiations. -/
def testGetblock : Bytes → Option Block := fun _ => none

/-- A 13-field uncle header whose nonce (field 12) is empty, so
`check_header_pow` trips its `assert len(header[-1]) == 32`. -/
def cexUncle : List Bytes := List.replicate 13 []

/-- A genesis-numbered block carrying `cexUncle`, with `uncles_hash`
chosen to match `testSha3 (testRlpL uncles)` so that `validate_uncles`
reaches the uncle loop. -/
def cexB : Block := { blk0 with uncles := [cexUncle], uncles_hash := [1] }

/-- A block with no uncles whose `uncles_hash` matches
`testSha3 (testRlpL [])`. -/
def wB6 : Block := { blk0 with uncles_hash := [1] }

/-- A concrete fresh peer. -/
def peer0 : Peer :=
  { status_received := false
    status_head_hash := none
    status_total_difficulty := none }

/-- Helper: `commit_state` always leaves an empty journal (either it was already
empty and nothing happened, or `reset_cache` emptied it). -/
lemma commit_state_journal_nil (b : Block) : (commit_state b).journal = [] := by
  unfold commit_state
  split
  · assumption
  · rfl

/-- The `if not len(self.journal): return` guard: with an empty journal,
`commit_state` changes nothing. -/
lemma commit_state_of_journal_nil (b : Block) (h : b.journal = []) :
    commit_state b = b := by
  unfold commit_state
  simp [h]

/-- C2: calling `commit_state` twice in succession equals calling it
once (the first call ends in `reset_cache`, so the second sees an empty
journal and returns immediately); a `commit_state` call with an empty
journal changes nothing; and after `finalize` (which ends in
`commit_state`) every further `commit_state` is a no-op. -/
theorem C2_commit_state_idempotent (b : Block) :
    commit_state (commit_state b) = commit_state b ∧
    commit_state (finalize b) = finalize b ∧
    (b.journal = [] → commit_state b = b) := by
  refine ⟨commit_state_of_journal_nil _ (commit_state_journal_nil b), ?_,
    fun h => commit_state_of_journal_nil b h⟩
  have h : (finalize b).journal = [] := by
    simp only [finalize]
    exact commit_state_journal_nil _
  exact commit_state_of_journal_nil _ h

/-- Witness for C2 at the concrete block `blk0`, whose journal is empty. -/
theorem C2_witness : commit_state blk0 = blk0 :=
  (C2_commit_state_idempotent blk0).2.2 rfl

/-- C4: the child difficulty computed at `init_from_parent` is
`calc_difficulty`, which equals the spec's
`parent.difficulty + sign * (parent.difficulty / 1024)` with `sign = +1`
iff `timestamp - parent.timestamp < 5`; at the scenario-S2 parent
(difficulty 131072, timestamp 1000) the child difficulty is 131200 at
timestamp 1004 and 130944 at timestamp 1010. -/
theorem C4_difficulty (parent : Block) (ts : Nat) :
    ((calc_difficulty parent ts : Int) =
      difficultySpec parent.difficulty parent.timestamp ts) ∧
    (∀ sha3 rlpenc rlpencL cb ed us,
      (init_from_parent sha3 rlpenc rlpencL parent cb ed ts us).difficulty
        = calc_difficulty parent ts) ∧
    calc_difficulty p131 1004 = 131200 ∧
    calc_difficulty p131 1010 = 130944 ∧
    (init_from_parent testSha3 testRlp testRlpL p131
      "0000000000000000000000000000000000000000" [] 1004 []).difficulty = 131200 ∧
    (init_from_parent testSha3 testRlp testRlpL p131
      "0000000000000000000000000000000000000000" [] 1010 []).difficulty = 130944 := by
  refine ⟨?_, fun _ _ _ _ _ _ => rfl, by decide, by decide, by decide, by decide⟩
  have h : parent.difficulty / 1024 ≤ parent.difficulty := Nat.div_le_self _ _
  simp only [calc_difficulty, difficultySpec, BLOCK_DIFF_FACTOR,
    DIFF_ADJUSTMENT_CUTOFF]
  split_ifs <;> omega

/-- C5: the child gas limit computed at `init_from_parent` is
`calc_gaslimit`, which equals the spec's
`max(125000, (parent.gas_limit * 1023 + parent.gas_used * 6 / 5) / 1024)`;
at the scenario-S2 parent (gas_limit 10^6, gas_used 0) the child gas
limit is 999023. -/
theorem C5_gaslimit (parent : Block) :
    calc_gaslimit parent = gasLimitSpec parent.gas_limit parent.gas_used ∧
    (∀ sha3 rlpenc rlpencL cb ed ts us,
      (init_from_parent sha3 rlpenc rlpencL parent cb ed ts us).gas_limit
        = calc_gaslimit parent) ∧
    calc_gaslimit p131 = 999023 := by
  refine ⟨?_, fun _ _ _ _ _ _ _ => rfl, by decide⟩
  simp only [calc_gaslimit, gasLimitSpec, GASLIMIT_EMA_FACTOR,
    BLKLIM_FACTOR_NOM, BLKLIM_FACTOR_DEN, MIN_GAS_LIMIT]
  exact Nat.max_comm _ _

/-- C3: for a 13-field header whose nonce (the 13th field) is exactly 32
bytes and whose decoded difficulty field is nonzero, `check_header_pow`
passes exactly when `sha3(sha3(encoding of the first 12 fields) ++ nonce)`
read as a big-endian unsigned integer is strictly below
`2 ^ 256 / difficulty` (integer division); a nonce that is not exactly 32
bytes fails the assertion (`none`). -/
theorem C3_check_header_pow (sha3 : Bytes → Bytes) (rlpenc : List Bytes → Bytes)
    (f0 f1 f2 f3 f4 f5 f6 f7 f8 f9 f10 f11 nonce : Bytes)
    (h32 : nonce.length = 32) (hd : decode_int f5 ≠ 0) :
    check_header_pow sha3 rlpenc [f0, f1, f2, f3, f4, f5, f6, f7, f8, f9, f10, f11, nonce]
      = some (powPassesSpec sha3 rlpenc
          [f0, f1, f2, f3, f4, f5, f6, f7, f8, f9, f10, f11, nonce]) ∧
    (∀ badnonce : Bytes, badnonce.length ≠ 32 →
      check_header_pow sha3 rlpenc
        [f0, f1, f2, f3, f4, f5, f6, f7, f8, f9, f10, f11, badnonce] = none) := by
  constructor
  · simp [check_header_pow, powPassesSpec, h32, hd, List.getD]
  · intro badnonce hbad
    simp [check_header_pow, hbad, List.getD]

/-- Witness for C3: a concrete 13-field header with a 32-byte nonce and
difficulty 1, and one with an empty nonce. -/
theorem C3_witness :
    check_header_pow testSha3 testRlp
      [[], [], [], [], [], [1], [], [], [], [], [], [], List.replicate 32 0]
      = some (powPassesSpec testSha3 testRlp
          [[], [], [], [], [], [1], [], [], [], [], [], [], List.replicate 32 0]) ∧
    check_header_pow testSha3 testRlp
      [[], [], [], [], [], [1], [], [], [], [], [], [], []] = none := by
  have h := C3_check_header_pow testSha3 testRlp
    [] [] [] [] [] [1] [] [] [] [] [] [] (List.replicate 32 0)
    (by decide) (by decide)
  exact ⟨h.1, h.2 [] (by decide)⟩

/-- Reading back a key just written. -/
lemma cacheGet_cacheSet_self (cs : Caches) (c : String) (k : CKey) (v : Val) :
    cacheGet (cacheSet cs c k v) c k = some v := by
  induction cs with
  | nil => simp [cacheSet, cacheGet]
  | cons kv rest ih =>
    obtain ⟨p, w⟩ := kv
    by_cases hk : p = (c, k)
    · simp [cacheSet, hk, cacheGet]
    · simp [cacheSet, hk, cacheGet, ih]

/-- Writing one key does not disturb another. -/
lemma cacheGet_cacheSet_ne (cs : Caches) (c c' : String) (k k' : CKey) (v : Val)
    (h : (c', k') ≠ (c, k)) :
    cacheGet (cacheSet cs c' k' v) c k = cacheGet cs c k := by
  induction cs with
  | nil => simp [cacheSet, cacheGet, h]
  | cons kv rest ih =>
    obtain ⟨p, w⟩ := kv
    by_cases hk : p = (c', k')
    · subst hk
      simp only [cacheSet, if_pos rfl]
      simp [cacheGet, h]
    · simp only [cacheSet]
      rw [if_neg (by simpa using hk)]
      simp [cacheGet, ih]

/-- Overwriting a present key with its previous value restores the
dictionary exactly. -/
lemma cacheSet_cacheSet_restore (cs : Caches) (c : String) (k : CKey) (v v0 : Val)
    (h : cacheGet cs c k = some v0) :
    cacheSet (cacheSet cs c k v) c k v0 = cs := by
  induction cs with
  | nil => simp [cacheGet] at h
  | cons kv rest ih =>
    obtain ⟨p, w⟩ := kv
    by_cases hk : p = (c, k)
    · subst hk
      have hw : w = v0 := by simpa [cacheGet] using h
      subst hw
      simp [cacheSet]
    · simp only [cacheGet] at h
      rw [if_neg (by simpa using hk)] at h
      simp only [cacheSet]
      rw [if_neg (by simpa using hk)]
      simp only [cacheSet]
      rw [if_neg (by simpa using hk)]
      rw [ih h]

/-- Deleting a freshly added (previously absent) key restores the
dictionary exactly. -/
lemma cacheDel_cacheSet_new (cs : Caches) (c : String) (k : CKey) (v : Val)
    (h : cacheGet cs c k = none) :
    cacheDel (cacheSet cs c k v) c k = cs := by
  induction cs with
  | nil => simp [cacheSet, cacheDel]
  | cons kv rest ih =>
    obtain ⟨p, w⟩ := kv
    by_cases hk : p = (c, k)
    · simp [cacheGet, hk] at h
    · simp only [cacheGet] at h
      rw [if_neg (by simpa using hk)] at h
      simp only [cacheSet]
      rw [if_neg (by simpa using hk)]
      simp only [cacheDel] at ih ⊢
      rw [List.filter_cons_of_pos (by simpa using hk)]
      rw [ih h]

/-- Helper: `set_and_journal` leaves the cached value at the written key. -/
lemma set_and_journal_get_self (b : Block) (c : String) (k : CKey) (v : Val) :
    cacheGet (set_and_journal b c k v).caches c k = some v := by
  unfold set_and_journal
  by_cases h : cacheGet b.caches c k = some v
  · simp [h]
  · simp [h, cacheGet_cacheSet_self]

/-- Helper: `set_and_journal` does not disturb other keys. -/
lemma set_and_journal_get_ne (b : Block) (c c' : String) (k k' : CKey) (v : Val)
    (h : (c', k') ≠ (c, k)) :
    cacheGet (set_and_journal b c' k' v).caches c k = cacheGet b.caches c k := by
  unfold set_and_journal
  by_cases hp : cacheGet b.caches c' k' = some v
  · simp [hp]
  · simp [hp, cacheGet_cacheSet_ne _ _ _ _ _ _ h]

/-- Helper: `set_and_journal` only appends to the journal. -/
lemma set_and_journal_journal (b : Block) (c : String) (k : CKey) (v : Val) :
    ∃ ex, (set_and_journal b c k v).journal = b.journal ++ ex := by
  unfold set_and_journal
  by_cases h : cacheGet b.caches c k = some v
  · exact ⟨[], by simp [h]⟩
  · exact ⟨[⟨c, k, cacheGet b.caches c k, v⟩], by simp [h]⟩

/-- A failing `_delta_item` returns `False` with the block untouched. -/
lemma delta_item_neg (b : Block) (a param : String) (value : Int)
    (h : valToInt (get_acct_item b a param) + value < 0) :
    delta_item b a param value = (false, b) := by
  unfold delta_item
  simp [h]

/-- A succeeding `_delta_item` returns `True` and the journalled write. -/
lemma delta_item_pos (b : Block) (a param : String) (value : Int)
    (h : 0 ≤ valToInt (get_acct_item b a param) + value) :
    delta_item b a param value =
      (true, set_acct_item b a param
        (Val.vint (valToInt (get_acct_item b a param) + value))) := by
  unfold delta_item
  simp [Int.not_lt.mpr h]

/-- C7: a balance debit larger than the current balance fails, returning
`False` and leaving the block — caches and journal included — exactly as
it was; a delta keeping the balance non-negative returns `True`, writes
the new balance through the `balance` cache (journalled, the journal only
growing), and the balance then reads back as old + delta. -/
theorem C7_delta_balance (b : Block) (a : String) (x v : Int)
    (hx : get_balance b a < x) (hv : 0 ≤ get_balance b a + v) :
    delta_balance b a (-x) = (false, b) ∧
    (delta_balance b a v).1 = true ∧
    cacheGet (delta_balance b a v).2.caches "balance" (CKey.addr a)
      = some (Val.vint (get_balance b a + v)) ∧
    get_balance (delta_balance b a v).2 a = get_balance b a + v ∧
    (∃ ex, (delta_balance b a v).2.journal = b.journal ++ ex) := by
  have hbal : valToInt (get_acct_item b a "balance") = get_balance b a := rfl
  have hpos := delta_item_pos b a "balance" v (by rw [hbal]; exact hv)
  rw [hbal] at hpos
  have hget : cacheGet (delta_balance b a v).2.caches "balance" (CKey.addr a)
      = some (Val.vint (get_balance b a + v)) := by
    show cacheGet (delta_item b a "balance" v).2.caches "balance" (CKey.addr a) = _
    rw [hpos]
    show cacheGet (set_acct_item b a "balance" _).caches "balance" (CKey.addr a) = _
    unfold set_acct_item
    rw [set_and_journal_get_ne _ _ _ _ _ _ (by simp)]
    rw [set_and_journal_get_self]
  refine ⟨?_, ?_, hget, ?_, ?_⟩
  · exact delta_item_neg b a "balance" (-x) (by rw [hbal]; omega)
  · show (delta_item b a "balance" v).1 = true
    rw [hpos]
  · show valToInt (get_acct_item (delta_item b a "balance" v).2 a "balance") = _
    unfold get_acct_item
    rw [if_pos (by decide)]
    rw [show cacheGet (delta_item b a "balance" v).2.caches "balance" (CKey.addr a)
          = some (Val.vint (get_balance b a + v)) from hget]
    rfl
  · show ∃ ex, (delta_item b a "balance" v).2.journal = b.journal ++ ex
    rw [hpos]
    show ∃ ex, (set_acct_item b a "balance" _).journal = b.journal ++ ex
    unfold set_acct_item
    obtain ⟨e1, he1⟩ := set_and_journal_journal b "balance" (CKey.addr a)
      (Val.vint (get_balance b a + v))
    obtain ⟨e2, he2⟩ := set_and_journal_journal
      (set_and_journal b "balance" (CKey.addr a) (Val.vint (get_balance b a + v)))
      "all" (CKey.addr a) (Val.vint (get_balance b a + v))
    exact ⟨e1 ++ e2, by rw [he2, he1, List.append_assoc]⟩

/-- Witness for C7 at `blk0` (balance 0): debiting 5 fails and changes
nothing; a delta of 7 succeeds and writes balance 7 through the cache. -/
theorem C7_witness :
    delta_balance blk0 "aa" (-5) = (false, blk0) ∧
    (delta_balance blk0 "aa" 7).1 = true ∧
    get_balance (delta_balance blk0 "aa" 7).2 "aa"
      = get_balance blk0 "aa" + 7 := by
  have h := C7_delta_balance blk0 "aa" 5 7 (by decide) (by decide)
  exact ⟨h.1, h.2.1, h.2.2.2.1⟩

/-- A failing `delta_balance` (first component `false`) leaves the block
unchanged. -/
lemma delta_balance_of_fst_false (b : Block) (a : String) (value : Int)
    (h : (delta_balance b a value).1 = false) :
    (delta_balance b a value).2 = b := by
  unfold delta_balance delta_item at h ⊢
  by_cases hv : valToInt (get_acct_item b a "balance") + value < 0
  · simp [hv]
  · simp [hv] at h

/-- C10: `transfer_value` requires `value >= 0` (the `assert` raises on a
strictly negative value before any state is touched); for a non-negative
value it debits the sender first, credits the receiver only when the
debit succeeded, and otherwise returns `False` with the block unchanged. -/
theorem C10_transfer_value (b : Block) (from_addr to_addr : String) (value : Int) :
    (value < 0 → transfer_value b from_addr to_addr value = none) ∧
    (0 ≤ value → transfer_value b from_addr to_addr value =
      some (if (delta_balance b from_addr (-value)).1 then
              delta_balance (delta_balance b from_addr (-value)).2 to_addr value
            else (false, b))) := by
  constructor
  · intro h
    unfold transfer_value
    simp [h]
  · intro h
    unfold transfer_value
    rw [if_neg (Int.not_lt.mpr h)]
    by_cases hd : (delta_balance b from_addr (-value)).1
    · simp [hd]
    · simp only [hd, Bool.false_eq_true, if_false]
      rw [delta_balance_of_fst_false b from_addr (-value)
        (Bool.eq_false_iff.mpr hd)]

/-- Witness for C10 at `blk0`: a negative value raises, value 0 takes the
debit-then-credit path. -/
theorem C10_witness :
    transfer_value blk0 "aa" "bb" (-1) = none ∧
    transfer_value blk0 "aa" "bb" 0 =
      some (if (delta_balance blk0 "aa" (-0)).1 then
              delta_balance (delta_balance blk0 "aa" (-0)).2 "bb" 0
            else (false, blk0)) :=
  ⟨(C10_transfer_value blk0 "aa" "bb" (-1)).1 (by decide),
   (C10_transfer_value blk0 "aa" "bb" 0).2 (by decide)⟩

/-- Popping a concatenated journal suffix undoes the later part first. -/
lemma revertCaches_append (cs : Caches) (l1 l2 : List JEntry) :
    revertCaches cs (l1 ++ l2) = revertCaches (revertCaches cs l2) l1 := by
  unfold revertCaches
  exact List.foldr_append _ _ _ _

/-- Undoing the journal delta of one `set_and_journal` restores the
caches. -/
lemma set_and_journal_revert (b : Block) (c : String) (k : CKey) (v : Val) :
    ∃ ex, (set_and_journal b c k v).journal = b.journal ++ ex ∧
      revertCaches (set_and_journal b c k v).caches ex = b.caches := by
  unfold set_and_journal
  by_cases h : cacheGet b.caches c k = some v
  · exact ⟨[], by simp [h], by simp [h, revertCaches]⟩
  · refine ⟨[⟨c, k, cacheGet b.caches c k, v⟩], by simp [h], ?_⟩
    simp only [h, if_false, revertCaches, List.foldr, undoEntry]
    cases hp : cacheGet b.caches c k with
    | none => exact cacheDel_cacheSet_new _ _ _ _ hp
    | some v0 => exact cacheSet_cacheSet_restore _ _ _ _ _ hp

/-- One claimed mutation only appends to the journal and to the suicide
list, and its journal delta undoes to the previous caches. -/
lemma applyOp_invariant (b : Block) (op : Op) :
    ∃ ex exs, (applyOp b op).journal = b.journal ++ ex ∧
      revertCaches (applyOp b op).caches ex = b.caches ∧
      (applyOp b op).suicides = b.suicides ++ exs := by
  cases op with
  | write c k v =>
    obtain ⟨ex, h1, h2⟩ := set_and_journal_revert b c k v
    refine ⟨ex, [], h1, h2, ?_⟩
    show (set_and_journal b c k v).suicides = _
    unfold set_and_journal
    by_cases h : cacheGet b.caches c k = some v <;> simp [h]
  | addSuicide a => exact ⟨[], [a], by simp [applyOp], by simp [applyOp, revertCaches], by simp [applyOp]⟩
  | setGas g => exact ⟨[], [], by simp [applyOp], by simp [applyOp, revertCaches], by simp [applyOp]⟩
  | addTx d => exact ⟨[], [], by simp [applyOp], by simp [applyOp, revertCaches], by simp [applyOp]⟩
  | setPost q => exact ⟨[], [], by simp [applyOp], by simp [applyOp, revertCaches], by simp [applyOp]⟩

/-- A sequence of claimed mutations only appends to the journal and the
suicide list, and undoing the appended journal suffix (last entry first)
restores the caches to their initial contents. -/
lemma applyOps_invariant (ops : List Op) (b : Block) :
    ∃ ex exs, (applyOps b ops).journal = b.journal ++ ex ∧
      revertCaches (applyOps b ops).caches ex = b.caches ∧
      (applyOps b ops).suicides = b.suicides ++ exs := by
  induction ops generalizing b with
  | nil => exact ⟨[], [], by simp [applyOps], by simp [applyOps, revertCaches], by simp [applyOps]⟩
  | cons op rest ih =>
    obtain ⟨ex0, exs0, g1, g2, g3⟩ := applyOp_invariant b op
    obtain ⟨ex1, exs1, h1, h2, h3⟩ := ih (applyOp b op)
    have happ : applyOps b (op :: rest) = applyOps (applyOp b op) rest := by
      simp [applyOps]
    refine ⟨ex0 ++ ex1, exs0 ++ exs1, ?_, ?_, ?_⟩
    · rw [happ, h1, g1, List.append_assoc]
    · rw [happ, revertCaches_append, h2, g2]
    · rw [happ, h3, g3, List.append_assoc]

/-- Taking the length of the left part of a concatenation returns it. -/
lemma take_append_self {α : Type} (l1 l2 : List α) :
    (l1 ++ l2).take l1.length = l1 := by
  induction l1 with
  | nil => simp
  | cons a t ih => simp [ih]

/-- Dropping the length of the left part of a concatenation leaves the
right part. -/
lemma drop_append_self {α : Type} (l1 l2 : List α) :
    (l1 ++ l2).drop l1.length = l2 := by
  induction l1 with
  | nil => simp
  | cons a t ih => simp [ih]

/-- C1: after taking a snapshot and performing any sequence of journalled
cache writes, suicide appends, `gas_used` changes, transaction appends,
and post-queue changes, `revert` restores every cache (by popping the
journal entries past the snapshot's journal length, each write restored
to `prev` or deleted when `prev` was absent), truncates the suicides list
to its snapshot length, and restores the state trie root, `gas_used`, the
transactions trie handle, the transaction count, and the post-queue to
their snapshot-time values. -/
theorem C1_revert_restores (b : Block) (ops : List Op) :
    (revert (applyOps b ops) (snapshot b)).caches = b.caches ∧
    (revert (applyOps b ops) (snapshot b)).journal = b.journal ∧
    (revert (applyOps b ops) (snapshot b)).suicides = b.suicides ∧
    (revert (applyOps b ops) (snapshot b)).state_root_hash = b.state_root_hash ∧
    (revert (applyOps b ops) (snapshot b)).gas_used = b.gas_used ∧
    (revert (applyOps b ops) (snapshot b)).transactions = b.transactions ∧
    (revert (applyOps b ops) (snapshot b)).transaction_count = b.transaction_count ∧
    (revert (applyOps b ops) (snapshot b)).postqueue = b.postqueue := by
  obtain ⟨ex, exs, h1, h2, h3⟩ := applyOps_invariant ops b
  refine ⟨?_, ?_, ?_, rfl, rfl, rfl, rfl, rfl⟩
  · show revertCaches (applyOps b ops).caches
      ((applyOps b ops).journal.drop (snapshot b).journal_size) = b.caches
    rw [h1, snapshot, drop_append_self]
    exact h2
  · show (applyOps b ops).journal.take (snapshot b).journal_size = b.journal
    rw [h1, snapshot, take_append_self]
  · show (applyOps b ops).suicides.take (snapshot b).suicides_size = b.suicides
    rw [h3, snapshot, take_append_self]

/-- C8: on a Status payload of (at least) five items, the handler sends a
Disconnect whenever the Ethereum protocol version, the network id, or the
genesis hash differs from the local values (leaving the peer state
unchanged); only when all three match does it set `status_received`,
record `status_head_hash` and `status_total_difficulty`, and emit
`peer_status_received`, taking none of the Disconnect paths. -/
theorem C8_recv_Status (localEthVer localNetId : Nat) (localGenesisHash : Bytes)
    (p : Peer) (data : List Bytes) (h5 : 5 ≤ data.length) :
    (big_endian_to_int (data.getD 0 []) ≠ localEthVer ∨
     big_endian_to_int (data.getD 1 []) ≠ localNetId ∨
     data.getD 4 [] ≠ localGenesisHash →
       (recv_Status localEthVer localNetId localGenesisHash p data).1 = p ∧
       ∃ r, PeerEvent.sentDisconnect r ∈
         (recv_Status localEthVer localNetId localGenesisHash p data).2) ∧
    (big_endian_to_int (data.getD 0 []) = localEthVer →
     big_endian_to_int (data.getD 1 []) = localNetId →
     data.getD 4 [] = localGenesisHash →
       (recv_Status localEthVer localNetId localGenesisHash p data).1 =
         { p with status_received := true
                  status_head_hash := some (data.getD 3 [])
                  status_total_difficulty :=
                    some (big_endian_to_int (data.getD 2 [])) } ∧
       (recv_Status localEthVer localNetId localGenesisHash p data).2 =
         [PeerEvent.statusReceived] ∧
       ∀ r, PeerEvent.sentDisconnect r ∉
         (recv_Status localEthVer localNetId localGenesisHash p data).2) := by
  have hlen : ¬ data.length < 5 := by omega
  constructor
  · intro hmis
    unfold recv_Status
    rw [if_neg hlen]
    simp only [List.getD_eq_getElem?_getD] at hmis
    rcases hmis with hm | hm | hm
    · simp [hm, send_Disconnect]
    · by_cases h0 : big_endian_to_int (data[0]?.getD []) = localEthVer
      · simp [h0, hm, send_Disconnect]
      · simp [h0, send_Disconnect]
    · by_cases h0 : big_endian_to_int (data[0]?.getD []) = localEthVer
      · by_cases h1 : big_endian_to_int (data[1]?.getD []) = localNetId
        · simp [h0, h1, hm, send_Disconnect]
        · simp [h0, h1, send_Disconnect]
      · simp [h0, send_Disconnect]
  · intro h0 h1 h4
    unfold recv_Status
    rw [if_neg hlen]
    simp only [List.getD_eq_getElem?_getD] at h0 h1 h4 ⊢
    simp [h0, h1, h4]

/-- Witness for C8: a five-item payload with a wrong version disconnects;
a matching payload records the status. -/
theorem C8_witness :
    ((recv_Status 1 1 [9] peer0 [[2], [1], [5], [7], [9]]).1 = peer0 ∧
     ∃ r, PeerEvent.sentDisconnect r ∈
       (recv_Status 1 1 [9] peer0 [[2], [1], [5], [7], [9]]).2) ∧
    ((recv_Status 1 1 [9] peer0 [[1], [1], [5], [7], [9]]).1 =
       { peer0 with status_received := true
                    status_head_hash := some [7]
                    status_total_difficulty := some 5 } ∧
     (recv_Status 1 1 [9] peer0 [[1], [1], [5], [7], [9]]).2 =
       [PeerEvent.statusReceived] ∧
     ∀ r, PeerEvent.sentDisconnect r ∉
       (recv_Status 1 1 [9] peer0 [[1], [1], [5], [7], [9]]).2) := by
  constructor
  · exact (C8_recv_Status 1 1 [9] peer0 [[2], [1], [5], [7], [9]]
      (by decide)).1 (Or.inl (by decide))
  · have h := (C8_recv_Status 1 1 [9] peer0 [[1], [1], [5], [7], [9]]
      (by decide)).2 (by decide) (by decide) (by decide)
    exact h

/-- C9 counterexample: the claim says a `CachedBlock` rejects *committing
state* by raising an error, but `CachedBlock.commit_state` is `pass`: at
this concrete cached block it returns normally (no raise), with the block
unchanged. -/
theorem C9_counterexample :
    cb_commit_state (CachedBlock.create_cached blk0)
      = some (CachedBlock.create_cached blk0) ∧
    cb_commit_state (CachedBlock.create_cached blk0) ≠ none := by
  exact ⟨rfl, by simp [cb_commit_state]⟩

/-- C9 (amended): a `CachedBlock` rejects setting an account item, adding
a transaction to the list, setting the state root, and reverting by
raising an error that leaves the wrapped block unchanged; committing
state is accepted as a silent no-op (`pass`) that also leaves the block
unchanged; and the hash is memoized: the first read computes the sha3 of
the serialized header and stores it, and a later read returns the stored
value unchanged (no recomputation) whenever the stored hash is non-empty
(a real 32-byte hash always is). -/
theorem C9_cached_block (sha3 : Bytes → Bytes) (rlpenc : List Bytes → Bytes)
    (b : Block) (hne : block_hash sha3 rlpenc b ≠ []) :
    (∀ a param v,
      cb_set_acct_item (CachedBlock.create_cached b) a param v = none) ∧
    (∀ d,
      cb_add_transaction_to_list (CachedBlock.create_cached b) d = none) ∧
    (∀ root, cb_set_state_root (CachedBlock.create_cached b) root = none) ∧
    (∀ s, cb_revert (CachedBlock.create_cached b) s = none) ∧
    cb_commit_state (CachedBlock.create_cached b)
      = some (CachedBlock.create_cached b) ∧
    (cb_hash sha3 rlpenc (CachedBlock.create_cached b)).1
      = block_hash sha3 rlpenc b ∧
    cb_hash sha3 rlpenc (cb_hash sha3 rlpenc (CachedBlock.create_cached b)).2
      = (block_hash sha3 rlpenc b,
         (cb_hash sha3 rlpenc (CachedBlock.create_cached b)).2) := by
  refine ⟨fun _ _ _ => rfl, fun _ => rfl, fun _ => rfl, fun _ => rfl, rfl, ?_, ?_⟩
  · simp [cb_hash, CachedBlock.create_cached]
  · have h1 : (cb_hash sha3 rlpenc (CachedBlock.create_cached b)).2
        = { blk := b, hash_cached := some (block_hash sha3 rlpenc b) } := by
      simp [cb_hash, CachedBlock.create_cached]
    rw [h1]
    simp [cb_hash, hne]

/-- Witness for C9 at `blk0` with the concrete stand-in hash, whose
output `[1]` is non-empty. -/
theorem C9_witness :
    cb_set_acct_item (CachedBlock.create_cached blk0) "aa" "balance"
      (Val.vint 1) = none ∧
    cb_commit_state (CachedBlock.create_cached blk0)
      = some (CachedBlock.create_cached blk0) ∧
    cb_hash testSha3 testRlp
        (cb_hash testSha3 testRlp (CachedBlock.create_cached blk0)).2
      = (block_hash testSha3 testRlp blk0,
         (cb_hash testSha3 testRlp (CachedBlock.create_cached blk0)).2) := by
  have h := C9_cached_block testSha3 testRlp blk0 (by decide)
  exact ⟨h.1 "aa" "balance" (Val.vint 1), h.2.2.2.2.1, h.2.2.2.2.2.2⟩

/-- The `ineligible.extend` folds build the concatenation of all uncle
lists after the initial contents. -/
lemma foldl_append_uncles (l : List Block) (init : List (List Bytes)) :
    l.foldl (fun acc a => acc ++ a.uncles) init
      = init ++ (l.map Block.uncles).flatten := by
  induction l generalizing init with
  | nil => simp
  | cons x t ih => simp [ih, List.append_assoc]

/-- The uncle loop never raises when every uncle's PoW check is defined,
and it returns `True` exactly when every uncle passes PoW, has an
eligible parent hash, avoids the initial ineligible list, and no uncle
repeats. -/
lemma uncleLoop_characterization (sha3 : Bytes → Bytes)
    (rlpenc : List Bytes → Bytes) (eligible : List Bytes)
    (us : List (List Bytes)) :
    ∀ inel : List (List Bytes),
      (∀ u ∈ us, (check_header_pow sha3 rlpenc u).isSome) →
      uncleLoop sha3 rlpenc eligible inel us ≠ none ∧
      (uncleLoop sha3 rlpenc eligible inel us = some true ↔
        (∀ u ∈ us, check_header_pow sha3 rlpenc u = some true ∧
           u.getD 0 [] ∈ eligible ∧ u ∉ inel) ∧ us.Nodup) := by
  induction us with
  | nil =>
    intro inel _
    exact ⟨by simp [uncleLoop], by simp [uncleLoop]⟩
  | cons u rest ih =>
    intro inel hdef
    have hu := hdef u (by simp)
    cases hpow : check_header_pow sha3 rlpenc u with
    | none => rw [hpow] at hu; simp at hu
    | some pb =>
      cases pb with
      | false =>
        have hred : uncleLoop sha3 rlpenc eligible inel (u :: rest) = some false := by
          simp [uncleLoop, hpow]
        rw [hred]
        refine ⟨by simp, ?_⟩
        constructor
        · intro hcon; exact absurd hcon (by simp)
        · rintro ⟨hall, _⟩
          exfalso
          have := (hall u (by simp)).1
          rw [hpow] at this
          exact absurd this (by simp)
      | true =>
        by_cases helig : u.getD 0 [] ∈ eligible
        · have helig' : u[0]?.getD [] ∈ eligible := by
            rw [← List.getD_eq_getElem?_getD]; exact helig
          by_cases hinel : u ∈ inel
          · have hred : uncleLoop sha3 rlpenc eligible inel (u :: rest)
                = some false := by
              simp [uncleLoop, hpow, helig', hinel]
            rw [hred]
            refine ⟨by simp, ?_⟩
            constructor
            · intro hcon; exact absurd hcon (by simp)
            · rintro ⟨hall, _⟩
              exact absurd hinel (by simpa using (hall u (by simp)).2.2)
          · obtain ⟨ihne, ihiff⟩ := ih (inel ++ [u])
              (fun x hx => hdef x (by simp [hx]))
            have hred : uncleLoop sha3 rlpenc eligible inel (u :: rest)
                = uncleLoop sha3 rlpenc eligible (inel ++ [u]) rest := by
              simp [uncleLoop, hpow, helig', hinel]
            rw [hred]
            refine ⟨ihne, ?_⟩
            rw [ihiff]
            constructor
            · rintro ⟨hall, hnd⟩
              constructor
              · intro x hx
                rcases List.mem_cons.mp hx with hx | hx
                · subst hx; exact ⟨hpow, helig, hinel⟩
                · obtain ⟨hp, he, hni⟩ := hall x hx
                  exact ⟨hp, he, fun hm => hni (List.mem_append_left _ hm)⟩
              · rw [List.nodup_cons]
                refine ⟨?_, hnd⟩
                intro hmem
                exact (hall u hmem).2.2
                  (List.mem_append_right _ (List.mem_singleton_self u))
            · rintro ⟨hall, hnd⟩
              rw [List.nodup_cons] at hnd
              constructor
              · intro x hx
                obtain ⟨hp, he, hni⟩ := hall x (List.mem_cons_of_mem _ hx)
                refine ⟨hp, he, ?_⟩
                intro hmem
                rcases List.mem_append.mp hmem with hm | hm
                · exact hni hm
                · rw [List.mem_singleton] at hm
                  subst hm
                  exact hnd.1 hx
              · exact hnd.2
        · have helig' : ¬ u[0]?.getD [] ∈ eligible := by
            rw [← List.getD_eq_getElem?_getD]; exact helig
          have hred : uncleLoop sha3 rlpenc eligible inel (u :: rest)
              = some false := by
            simp [uncleLoop, hpow, helig']
          rw [hred]
          refine ⟨by simp, ?_⟩
          constructor
          · intro hcon; exact absurd hcon (by simp)
          · rintro ⟨hall, _⟩
            exact absurd (hall u (by simp)).2.1 helig

/-- C6 counterexample: the claim says `validate_uncles` returns `False`
whenever its conditions fail, but on this block — whose single uncle has
an empty nonce and so fails the proof-of-work conditions — the
`assert len(header[-1]) == 32` inside `check_header_pow` raises, and
`validate_uncles` propagates the exception (`none`) instead of returning
`False`. -/
theorem C6_counterexample :
    validate_uncles testSha3 testRlp testRlpL testGetblock cexB = none ∧
    validate_uncles testSha3 testRlp testRlpL testGetblock cexB ≠ some false := by
  have h : validate_uncles testSha3 testRlp testRlpL testGetblock cexB = none := by
    decide
  exact ⟨h, by rw [h]; simp⟩

/-- C6 (amended): provided the ancestor chain resolves and every uncle's
PoW check is defined (32-byte nonce, nonzero difficulty — otherwise the
check's assertion propagates instead of a `False` return),
`validate_uncles` returns `True` exactly when the uncles hash matches and
every uncle, in order, passes PoW, has its prevhash among the hashes of
ancestors 2..7 back, is not an uncle included by ancestors 1..7 back, is
not any chain member's own header, and is not a duplicate within the
list; under the same provisos it never raises, so it otherwise returns
`False`. -/
theorem C6_validate_uncles (sha3 : Bytes → Bytes) (rlpenc : List Bytes → Bytes)
    (rlpencL : List (List Bytes) → Bytes) (getblock : Bytes → Option Block)
    (b : Block) (chain : List Block)
    (hchain : ancestor_chain getblock b = some chain)
    (hdef : ∀ u ∈ b.uncles, (check_header_pow sha3 rlpenc u).isSome) :
    (validate_uncles sha3 rlpenc rlpencL getblock b = some true ↔
      unclesSpecProp sha3 rlpenc rlpencL chain b) ∧
    validate_uncles sha3 rlpenc rlpencL getblock b ≠ none := by
  unfold validate_uncles
  by_cases hh : sha3 (rlpencL b.uncles) = b.uncles_hash
  · rw [if_neg (by simp [hh])]
    rw [hchain]
    obtain ⟨hne, hiff⟩ := uncleLoop_characterization sha3 rlpenc
      ((chain.drop 2).map (block_hash sha3 rlpenc)) b.uncles
      (((chain.drop 1).foldl (fun acc a => acc ++ a.uncles) [])
        ++ chain.map list_header)
      hdef
    refine ⟨?_, hne⟩
    rw [hiff]
    unfold unclesSpecProp
    rw [foldl_append_uncles]
    simp only [List.nil_append]
    constructor
    · rintro ⟨hall, hnd⟩
      refine ⟨hh, ?_, hnd⟩
      intro u hu
      obtain ⟨hp, he, hni⟩ := hall u hu
      exact ⟨hp, he, fun hm => hni (List.mem_append_left _ hm),
        fun hm => hni (List.mem_append_right _ hm)⟩
    · rintro ⟨_, hall, hnd⟩
      refine ⟨?_, hnd⟩
      intro u hu
      obtain ⟨hp, he, h1, h2⟩ := hall u hu
      refine ⟨hp, he, ?_⟩
      intro hm
      rcases List.mem_append.mp hm with hm | hm
      · exact h1 hm
      · exact h2 hm
  · rw [if_pos (by simpa using hh)]
    refine ⟨?_, by simp⟩
    constructor
    · intro hcon; exact absurd hcon (by simp)
    · rintro ⟨hsp, _, _⟩
      exact absurd hsp hh

/-- Witness for C6 at a genesis-numbered block with no uncles: the chain
is `[wB6]` and the definedness hypothesis is vacuous. -/
theorem C6_witness :
    (validate_uncles testSha3 testRlp testRlpL testGetblock wB6 = some true ↔
      unclesSpecProp testSha3 testRlp testRlpL [wB6] wB6) ∧
    validate_uncles testSha3 testRlp testRlpL testGetblock wB6 ≠ none :=
  C6_validate_uncles testSha3 testRlp testRlpL testGetblock wB6 [wB6] rfl
    (by decide)
